import Mathlib

/-!
Shallow embedding of `src/sp0256.py`, a GI SP0256-AL2 speech-synthesis
simulator: text is tokenized, words are mapped to phonetic labels via a
pronunciation dictionary, each label is resolved to a pre-recorded WAV
fragment identifier through two fixed catalogs with digit-stripping and
closest-match fallback rules, and the fragments are concatenated into one
output waveform.

Python `dict` literals preserve insertion order, so the two catalogs are
embedded as ordered association lists.  Python strings are modelled as Lean
`String`; the ASCII fragments of the character classes used by the source
(`\w`, `\s`, `str.isdigit`, `str.lower`) are modelled explicitly.  The
external collaborators (CMU pronunciation dictionary, WAV-file storage) are
passed in as function parameters.  Exceptions are modelled with `Except`.
-/

/-- `numbered` dict of `sp0256.py` (lines 59-72): all allophones which have
multiple WAV files, as an ordered association list. -/
def numbered : List (String × List String) :=
  [ ("BB", ["BB1.wav", "BB2.wav"]),
    ("DD", ["DD1.wav", "DD2.wav"]),
    ("DH", ["DH1.wav", "DH2.wav"]),
    ("ER", ["ER1.wav", "ER2.wav"]),
    ("GG", ["GG2.wav", "GG3.wav"]),
    ("HH", ["HH1.wav", "HH2.wav"]),
    ("KK", ["KK1.wav", "KK2.wav", "KK3.wav"]),
    ("NN", ["NN1.wav", "NN2.wav"]),
    ("RR", ["RR1.wav", "RR2.wav"]),
    ("TT", ["TT1.wav", "TT2.wav"]),
    ("UW", ["UW1.wav", "UW2.wav"]),
    ("YY", ["YY1.wav", "YY2.wav"]) ]

/-- `unnumbered` dict of `sp0256.py` (lines 75-110): all allophones with a
single WAV file, as an ordered association list. -/
def unnumbered : List (String × List String) :=
  [ ("AA", ["AA.wav"]), ("AE", ["AE.wav"]), ("AO", ["AO.wav"]),
    ("AR", ["AR.wav"]), ("AW", ["AW.wav"]), ("AX", ["AX.wav"]),
    ("AY", ["AY.wav"]), ("CH", ["CH.wav"]), ("EH", ["EH.wav"]),
    ("EL", ["EL.wav"]), ("EY", ["EY.wav"]), ("FF", ["FF.wav"]),
    ("GOT", ["GOT.wav"]), ("IH", ["IH.wav"]), ("IY", ["IY.wav"]),
    ("JH", ["JH.wav"]), ("LL", ["LL.wav"]), ("MM", ["MM.wav"]),
    ("NG", ["NG.wav"]), ("OR", ["OR.wav"]), ("OW", ["OW.wav"]),
    ("OY", ["OY.wav"]), ("PP", ["PP.wav"]), ("SH", ["SH.wav"]),
    ("SS", ["SS.wav"]), ("TH", ["TH.wav"]), ("UH", ["UH.wav"]),
    ("VV", ["VV.wav"]), ("WH", ["WH.wav"]), ("WW", ["WW.wav"]),
    ("XR", ["XR.wav"]), ("YR", ["YR.wav"]), ("ZH", ["ZH.wav"]),
    ("ZZ", ["ZZ.wav"]) ]

/-- Key lookup in an ordered association list: models Python `d[k]` /
`k in d` on the catalog dicts (keys are unique, so first match suffices). -/
def lookupCatalog (cat : List (String × List String)) (k : String) :
    Option (List String) :=
  (cat.find? (fun p => p.1 = k)).map (fun p => p.2)

/-- ASCII model of Python `char.isdigit()`. -/
def pyIsDigit (c : Char) : Bool := c.isDigit

/-- The digit-stripped label: `''.join(char for char in allophone if not
char.isdigit())` of `allophone_contains_digit` (line 164). -/
def stripDigits (a : String) : String :=
  String.mk (a.data.filter (fun c => !(pyIsDigit c)))

/-- `allophone_contains_digit` (lines 151-169): returns
`[allophone, digits_removed]` when removing digits changed the string,
else the empty list. -/
def allophone_contains_digit (allophone : String) : List String :=
  if stripDigits allophone ≠ allophone then [allophone, stripDigits allophone]
  else []

/-- One pass of the loops in `find_closest_match` (lines 187-209) over one
catalog: for a 1-character input the key must equal the doubled character;
for a longer input the first characters must agree.  `some vs` models the
`return` from inside the Python loop with the first matching key's WAV
list, `none` models falling through the loop. -/
def scanCatalog (cat : List (String × List String)) (input_str : String) :
    Option (List String) :=
  match cat with
  | [] => none
  | (k, vs) :: rest =>
    if input_str.length = 1 then
      if k = input_str ++ input_str then some vs else scanCatalog rest input_str
    else if input_str.length > 1 then
      if input_str.data.head? = k.data.head? then some vs
      else scanCatalog rest input_str
    else scanCatalog rest input_str

/-- `find_closest_match` (lines 171-212): scan `numbered` first (returning
from inside the loop on the first hit), then `unnumbered`, else return the
empty list (line 212). -/
def find_closest_match (input_str : String) : List String :=
  match scanCatalog numbered input_str with
  | some vs => vs
  | none =>
    match scanCatalog unnumbered input_str with
    | some vs => vs
    | none => []

/-- `lookup_allophone` (lines 214-257): sentinels first, then exact catalog
keys (first-listed WAV), then the digit-stripped label against both
catalogs, then `find_closest_match` on the original label; `""` if all
fail (Python's falsy empty string / `match[0]` of a non-empty list). -/
def lookup_allophone (allophone : String) : String :=
  if allophone = "SPACE" then "SPACE.wav"
  else if allophone = "PERIOD" then "PERIOD.wav"
  else if allophone = "COMMA" then "COMMA.wav"
  else match lookupCatalog numbered allophone with
  | some vs => vs.headD ""
  | none => match lookupCatalog unnumbered allophone with
    | some vs => vs.headD ""
    | none =>
      if allophone_contains_digit allophone ≠ [] then
        match lookupCatalog numbered (stripDigits allophone) with
        | some vs => vs.headD ""
        | none => match lookupCatalog unnumbered (stripDigits allophone) with
          | some vs => vs.headD ""
          | none => match find_closest_match allophone with
            | [] => ""
            | v :: _ => v
      else match find_closest_match allophone with
        | [] => ""
        | v :: _ => v

example : lookup_allophone "HH" = "HH1.wav" := by decide
example : lookup_allophone "AY1" = "AY.wav" := by decide
example : lookup_allophone "D" = "DD1.wav" := by decide
example : lookup_allophone "Z" = "ZZ.wav" := by decide
example : lookup_allophone "Q" = "" := by decide
example : lookup_allophone "SPACE" = "SPACE.wav" := by decide

/-- ASCII model of the regex word-character class `\w`:
letters, digits and underscore. -/
def isWordChar (c : Char) : Bool := c.isAlphanum || c = '_'

/-- Model of the regex whitespace class `\s` (ASCII fragment). -/
def isSpaceChar (c : Char) : Bool := c.isWhitespace

/-- ASCII uppercase test, model of the `A`-`Z` range. -/
def isUpperAscii (c : Char) : Bool := 65 ≤ c.toNat && c.toNat ≤ 90

/-- ASCII model of Python `str.lower()` on one character. -/
def lowerChar (c : Char) : Char :=
  if 65 ≤ c.toNat ∧ c.toNat ≤ 90 then Char.ofNat (c.toNat + 32) else c

/-- ASCII model of Python `str.lower()`. -/
def lowerStr (s : String) : String := String.mk (s.data.map lowerChar)

/-- Left-to-right scanner for `re.findall(r'\w+|\s|[^\w\s]', text)`
(`parse_input`, line 274), on character lists.  `acc` holds the reversed
word run currently being read.  Every character is matched by exactly one
alternative: a word character extends the current maximal `\w+` run, any
other character first emits the pending run and then becomes a
single-character token. -/
def tokenizeAux : List Char → List Char → List (List Char)
  | [], acc => if acc = [] then [] else [acc.reverse]
  | c :: rest, acc =>
    if isWordChar c then tokenizeAux rest (c :: acc)
    else (if acc = [] then [] else [acc.reverse]) ++ [c] :: tokenizeAux rest []

/-- `parse_input` (lines 259-275): breaks a sentence into maximal word
runs, single whitespace characters and single punctuation characters. -/
def parse_input (input_text : String) : List String :=
  (tokenizeAux input_text.data []).map String.mk

example : parse_input "hello there, alien." =
    ["hello", " ", "there", ",", " ", "alien", "."] := by decide

/-- Left-to-right scanner for `re.findall(r'\w+', text)`
(`text_to_allophones`, line 133): only the maximal word runs are kept. -/
def findWordsAux : List Char → List Char → List (List Char)
  | [], acc => if acc = [] then [] else [acc.reverse]
  | c :: rest, acc =>
    if isWordChar c then findWordsAux rest (c :: acc)
    else (if acc = [] then [] else [acc.reverse]) ++ findWordsAux rest []

/-- The word tokens of a text: `re.findall(r'\w+', text)`. -/
def findWords (text : String) : List String :=
  (findWordsAux text.data []).map String.mk

/-- `text_to_allophones` (lines 116-149), with the external CMU dictionary
abstracted as `cmu : String → List (List String)` (word to pronunciation
variants; the empty list models an absent word, Python's
`cmu_dict.get(word, [])`).  `headD` is the `if pronunciations:` branch:
first variant when present, `[word]` when the word is absent.  The Python
`dict` built by the loop is modelled as an association list with
first-match lookup; duplicate word occurrences insert equal values, so
overwriting is immaterial. -/
def text_to_allophones (cmu : String → List (List String)) (text : String) :
    List (String × List String) :=
  (findWords (lowerStr text)).map (fun word => (word, (cmu word).headD [word]))

/-- Python `word in allophone_dict` on the association-list model. -/
def dictContains (d : List (String × List String)) (w : String) : Bool :=
  (d.find? (fun p => p.1 = w)).isSome

/-- Python `allophone_dict[word]` on the association-list model. -/
def dictGet (d : List (String × List String)) (w : String) : List String :=
  ((d.find? (fun p => p.1 = w)).map (fun p => p.2)).getD []

/-- `process_punctuation` (lines 277-307): walk the parsed tokens; a token
present in the allophone dict contributes its label sequence, the tokens
`","`, `" "`, `"."` contribute their sentinel labels, every other token
contributes nothing. -/
def process_punctuation (parsed_input : List String)
    (allophone_dict : List (String × List String)) : List String :=
  match parsed_input with
  | [] => []
  | word :: rest =>
    (if dictContains allophone_dict word then dictGet allophone_dict word
     else if word = "," then ["COMMA"]
     else if word = " " then ["SPACE"]
     else if word = "." then ["PERIOD"]
     else []) ++ process_punctuation rest allophone_dict

/-- `IGNORE_SPACES` (line 50). -/
def IGNORE_SPACES : Bool := true
/-- `IGNORE_PERIODS` (line 51). -/
def IGNORE_PERIODS : Bool := true
/-- `IGNORE_COMMAS` (line 52). -/
def IGNORE_COMMAS : Bool := true

/-- `prune_punctuation` (lines 309-326): drop the sentinel WAV names whose
ignore flag is set. -/
def prune_punctuation (allophones : List String) : List String :=
  let result := allophones
  let result := if IGNORE_SPACES then result.filter (fun i => i ≠ "SPACE.wav")
                else result
  let result := if IGNORE_PERIODS then result.filter (fun i => i ≠ "PERIOD.wav")
                else result
  let result := if IGNORE_COMMAS then result.filter (fun i => i ≠ "COMMA.wav")
                else result
  result

/-- The loop of `write_wav` (lines 336-352), with WAV-file storage
abstracted as `store : String → Nat × List Int` (sample rate and mono
16-bit samples).  The `Option Nat` is Python's `sample_rate` variable,
`None` before the first file; a rate differing from the established one
raises `ValueError`, modelled as `Except.error`. -/
def writeWavLoop (store : String → Nat × List Int) :
    List String → Option Nat → List Int →
    Except String (Option Nat × List Int)
  | [], sample_rate, combined_audio => .ok (sample_rate, combined_audio)
  | wav_file :: rest, sample_rate, combined_audio =>
    let current := store wav_file
    match sample_rate with
    | none => writeWavLoop store rest (some current.1)
        (combined_audio ++ current.2)
    | some r =>
      if r ≠ current.1 then
        .error "All WAV files must have the same sample rate."
      else writeWavLoop store rest (some r) (combined_audio ++ current.2)

/-- `write_wav` (lines 328-363): concatenate the named fragments in order;
`Except.ok` is the written output file (common sample rate and
concatenated samples), `Except.error` is the `ValueError` raised before
anything is written. -/
def write_wav (store : String → Nat × List Int) (wav_files : List String) :
    Except String (Option Nat × List Int) :=
  writeWavLoop store wav_files none []

/-- The resolution loop of `main` (lines 372-376): look every processed
label up and keep the non-empty (truthy) WAV names in order. -/
def resolveAll (processed_input : List String) : List String :=
  (processed_input.map lookup_allophone).filter (fun w => w ≠ "")

/-- `main` (lines 365-383) up to the pruned fragment list: parse, build the
allophone dict, expand punctuation, resolve each label, then prune the
ignored sentinel fragments (the flags are all `true`, so the guard at
line 379 takes the pruning branch). -/
def main_fragments (cmu : String → List (List String)) (input_string : String) :
    List String :=
  let parsed_input := parse_input input_string
  let allophone_dict := text_to_allophones cmu input_string
  let processed_input := process_punctuation parsed_input allophone_dict
  let result := resolveAll processed_input
  if IGNORE_SPACES || IGNORE_PERIODS || IGNORE_COMMAS then
    prune_punctuation result
  else result

/-- `main` through `write_wav`: the full pipeline from input text to the
output waveform. -/
def mainPipeline (cmu : String → List (List String))
    (store : String → Nat × List Int) (input_string : String) :
    Except String (Option Nat × List Int) :=
  write_wav store (main_fragments cmu input_string)

/-- The closest-match rule as the spec states it, per key: a 1-character
input matches a key exactly when doubling its character equals the key; a
longer input matches exactly when its first character equals the key's
first character. -/
def matchesKey (input_str k : String) : Bool :=
  if input_str.length = 1 then k = input_str ++ input_str
  else if input_str.length > 1 then input_str.data.head? = k.data.head?
  else false

/-- A token that is a word: a non-empty run of word characters. -/
def isWordStr (tok : String) : Bool :=
  !tok.data.isEmpty && tok.data.all isWordChar

/-- The token-to-label expansion as the spec states it, per token: a word
that was looked up contributes its full label sequence, a single space the
space sentinel, a literal period or comma its sentinel, anything else
nothing. -/
def expanderSpec (d : List (String × List String)) (tok : String) :
    List String :=
  if isWordStr tok && dictContains d tok then dictGet d tok
  else if tok = " " then ["SPACE"]
  else if tok = "." then ["PERIOD"]
  else if tok = "," then ["COMMA"]
  else []

/-! ### Helper lemmas -/

lemma stripDigits_ne_of_any {a : String} (h : a.data.any pyIsDigit = true) :
    stripDigits a ≠ a := by
  intro he
  have hd : a.data.filter (fun c => !(pyIsDigit c)) = a.data :=
    congrArg String.data he
  rw [List.filter_eq_self] at hd
  obtain ⟨c, hc, hdig⟩ := List.any_eq_true.mp h
  have := hd c hc
  simp [hdig] at this

lemma lookupCatalog_imp_mem {cat : List (String × List String)} {k : String}
    {vs : List String} (h : lookupCatalog cat k = some vs) :
    ∃ p ∈ cat, p.2 = vs := by
  unfold lookupCatalog at h
  cases hfind : cat.find? (fun p => p.1 = k) with
  | none => rw [hfind] at h; simp at h
  | some p =>
    rw [hfind] at h
    simp only [Option.map_some'] at h
    exact ⟨p, List.mem_of_find?_eq_some hfind, by simpa using h⟩

lemma scanCatalog_eq_find (cat : List (String × List String))
    (input_str : String) :
    scanCatalog cat input_str =
      (cat.find? (fun p => matchesKey input_str p.1)).map (fun p => p.2) := by
  induction cat with
  | nil => rfl
  | cons hd tl ih =>
    obtain ⟨k, vs⟩ := hd
    by_cases h1 : input_str.length = 1
    · by_cases h2 : k = input_str ++ input_str
      · have hm : matchesKey input_str (input_str ++ input_str) = true := by
          simp [matchesKey, h1]
        simp [scanCatalog, h1, h2, List.find?_cons, hm]
      · have hm : matchesKey input_str k = false := by simp [matchesKey, h1, h2]
        simp [scanCatalog, h1, h2, List.find?_cons, hm, ih]
    · by_cases h1' : input_str.length > 1
      · by_cases h2 : input_str.data.head? = k.data.head?
        · have hm : matchesKey input_str k = true := by
            simp [matchesKey, h1, h1', h2]
          simp [scanCatalog, h1, h1', h2, List.find?_cons, hm]
        · have hm : matchesKey input_str k = false := by
            simp [matchesKey, h1, h1', h2]
          simp [scanCatalog, h1, h1', h2, List.find?_cons, hm, ih]
      · have hm : matchesKey input_str k = false := by simp [matchesKey, h1, h1']
        simp [scanCatalog, h1, h1', List.find?_cons, hm, ih]

lemma find_closest_match_eq (input_str : String) :
    find_closest_match input_str =
      (((numbered ++ unnumbered).find? (fun p => matchesKey input_str p.1)).map
        (fun p => p.2)).getD [] := by
  unfold find_closest_match
  rw [scanCatalog_eq_find, scanCatalog_eq_find, List.find?_append]
  cases numbered.find? (fun p => matchesKey input_str p.1) with
  | none => cases unnumbered.find? (fun p => matchesKey input_str p.1) <;> simp
  | some p => simp [Option.or]

lemma closest_cases (a : String) :
    find_closest_match a = [] ∨
    ∃ p ∈ numbered ++ unnumbered, find_closest_match a = p.2 := by
  rw [find_closest_match_eq]
  cases hf : (numbered ++ unnumbered).find? (fun p => matchesKey a p.1) with
  | none => left; simp
  | some p => right; exact ⟨p, List.mem_of_find?_eq_some hf, by simp⟩

lemma fallbackResult_ok (a : String) :
    (match find_closest_match a with | [] => "" | v :: _ => v) = "" ∨
    (match find_closest_match a with | [] => "" | v :: _ => v) ∈
      (numbered ++ unnumbered).map (fun p => p.2.headD "") := by
  rcases closest_cases a with h | ⟨p, hp, h⟩
  · left; rw [h]
  · cases hv : p.2 with
    | nil => left; rw [h, hv]
    | cons v vs =>
      right; rw [h, hv]
      exact (List.mem_map).mpr ⟨p, hp, by rw [hv]; rfl⟩

lemma exactResult_mem {cat : List (String × List String)} {a : String}
    {vs : List String} (h : lookupCatalog cat a = some vs) :
    vs.headD "" ∈ cat.map (fun p => p.2.headD "") := by
  obtain ⟨p, hp, he⟩ := lookupCatalog_imp_mem h
  rw [← he]
  exact List.mem_map_of_mem _ hp

/-! ### Claims -/

/-- Claim C1: every exact key of the multi-variant catalog resolves to that
entry's first-listed fragment identifier, and every exact key of the
single-variant catalog (none of which is also a multi-variant key)
resolves to that entry's sole fragment identifier. -/
theorem claim_C1 :
    (∀ p ∈ numbered, lookup_allophone p.1 = p.2.headD "") ∧
    (∀ p ∈ unnumbered, lookupCatalog numbered p.1 = none ∧
      p.2.length = 1 ∧ lookup_allophone p.1 = p.2.headD "") := by
  decide

/-- Claim C2: a non-sentinel label that is no exact key of either catalog
but contains a digit is resolved through its digit-stripped form: a
multi-variant hit returns that entry's first fragment, otherwise a
single-variant hit returns that entry's identifier. -/
theorem claim_C2 (a : String)
    (hs : a ≠ "SPACE" ∧ a ≠ "PERIOD" ∧ a ≠ "COMMA")
    (hn : lookupCatalog numbered a = none)
    (hu : lookupCatalog unnumbered a = none)
    (hd : a.data.any pyIsDigit = true) :
    (∀ vs, lookupCatalog numbered (stripDigits a) = some vs →
      lookup_allophone a = vs.headD "") ∧
    (lookupCatalog numbered (stripDigits a) = none →
      ∀ vs, lookupCatalog unnumbered (stripDigits a) = some vs →
        lookup_allophone a = vs.headD "") := by
  obtain ⟨hs1, hs2, hs3⟩ := hs
  have hne : allophone_contains_digit a ≠ [] := by
    unfold allophone_contains_digit
    rw [if_pos (stripDigits_ne_of_any hd)]
    simp
  refine ⟨fun vs hvs => ?_, fun hsn vs hvs => ?_⟩
  · simp [lookup_allophone, hs1, hs2, hs3, hn, hu, hne, hvs]
  · simp [lookup_allophone, hs1, hs2, hs3, hn, hu, hne, hsn, hvs]

/-- Witness for C2: `"ER1"` strips to the multi-variant key `"ER"`,
`"AY1"` strips to the single-variant key `"AY"`. -/
theorem claim_C2_witness :
    lookup_allophone "ER1" = "ER1.wav" ∧ lookup_allophone "AY1" = "AY.wav" := by
  constructor
  · exact ((claim_C2 "ER1" (by decide) (by decide) (by decide) (by decide)).1
      ["ER1.wav", "ER2.wav"] (by decide)).trans (by decide)
  · exact ((claim_C2 "AY1" (by decide) (by decide) (by decide) (by decide)).2
      (by decide) ["AY.wav"] (by decide)).trans (by decide)

/-- Claim C3: a label reaching the closest-match fallback (no sentinel, no
exact key, and no catalog hit for its digit-stripped form) resolves to the
first fragment of the first key of `numbered ++ unnumbered`, in declared
order, matched by the doubled-character rule (length-1 input) or the
first-character rule (longer input); if no key matches the result is the
empty string. -/
theorem claim_C3 (a : String)
    (hs : a ≠ "SPACE" ∧ a ≠ "PERIOD" ∧ a ≠ "COMMA")
    (hn : lookupCatalog numbered a = none)
    (hu : lookupCatalog unnumbered a = none)
    (hsn : lookupCatalog numbered (stripDigits a) = none)
    (hsu : lookupCatalog unnumbered (stripDigits a) = none) :
    lookup_allophone a =
      match (numbered ++ unnumbered).find? (fun p => matchesKey a p.1) with
      | some p => p.2.headD ""
      | none => "" := by
  obtain ⟨hs1, hs2, hs3⟩ := hs
  have hmain : lookup_allophone a =
      match find_closest_match a with
      | [] => ""
      | v :: _ => v := by
    by_cases hdig : allophone_contains_digit a = []
    · simp [lookup_allophone, hs1, hs2, hs3, hn, hu, hdig]
    · simp [lookup_allophone, hs1, hs2, hs3, hn, hu, hdig, hsn, hsu]
  rw [hmain, find_closest_match_eq]
  cases hf : (numbered ++ unnumbered).find? (fun p => matchesKey a p.1) with
  | none => simp
  | some p =>
    cases hp : p.2 with
    | nil => simp [hp]
    | cons v vs => simp [hp]

/-- Witness for C3: `"D"` matches the doubled key `"DD"` and returns its
first variant; `"Q"` matches nothing and yields the empty string. -/
theorem claim_C3_witness :
    lookup_allophone "D" = "DD1.wav" ∧ lookup_allophone "Q" = "" := by
  constructor
  · exact (claim_C3 "D" (by decide) (by decide) (by decide) (by decide)
      (by decide)).trans (by decide)
  · exact (claim_C3 "Q" (by decide) (by decide) (by decide) (by decide)
      (by decide)).trans (by decide)

/-- Claim C10: every non-empty resolver result is a sentinel fragment or
the first-listed fragment of some catalog entry; later-listed variants are
never returned. -/
theorem claim_C10 (a : String) :
    lookup_allophone a = "" ∨
    lookup_allophone a ∈
      "SPACE.wav" :: "PERIOD.wav" :: "COMMA.wav" ::
        (numbered ++ unnumbered).map (fun p => p.2.headD "") := by
  by_cases h1 : a = "SPACE"
  · right; simp [lookup_allophone, h1]
  by_cases h2 : a = "PERIOD"
  · right; simp [lookup_allophone, h1, h2]
  by_cases h3 : a = "COMMA"
  · right; simp [lookup_allophone, h1, h2, h3]
  cases hn : lookupCatalog numbered a with
  | some vs =>
    right
    have hl : lookup_allophone a = vs.headD "" := by
      simp [lookup_allophone, h1, h2, h3, hn]
    rw [hl]
    have := exactResult_mem hn
    simp only [List.map_append]
    exact List.mem_cons_of_mem _ (List.mem_cons_of_mem _
      (List.mem_cons_of_mem _ (List.mem_append_left _ this)))
  | none =>
    cases hu : lookupCatalog unnumbered a with
    | some vs =>
      right
      have hl : lookup_allophone a = vs.headD "" := by
        simp [lookup_allophone, h1, h2, h3, hn, hu]
      rw [hl]
      have := exactResult_mem hu
      simp only [List.map_append]
      exact List.mem_cons_of_mem _ (List.mem_cons_of_mem _
        (List.mem_cons_of_mem _ (List.mem_append_right _ this)))
    | none =>
      by_cases hdig : allophone_contains_digit a = []
      · have hl : lookup_allophone a =
            match find_closest_match a with
            | [] => ""
            | v :: _ => v := by
          simp [lookup_allophone, h1, h2, h3, hn, hu, hdig]
        rw [hl]
        rcases fallbackResult_ok a with h | h
        · left; exact h
        · right
          exact List.mem_cons_of_mem _ (List.mem_cons_of_mem _
            (List.mem_cons_of_mem _ h))
      · cases hsn : lookupCatalog numbered (stripDigits a) with
        | some vs =>
          right
          have hl : lookup_allophone a = vs.headD "" := by
            simp [lookup_allophone, h1, h2, h3, hn, hu, hdig, hsn]
          rw [hl]
          have := exactResult_mem hsn
          simp only [List.map_append]
          exact List.mem_cons_of_mem _ (List.mem_cons_of_mem _
            (List.mem_cons_of_mem _ (List.mem_append_left _ this)))
        | none =>
          cases hsu : lookupCatalog unnumbered (stripDigits a) with
          | some vs =>
            right
            have hl : lookup_allophone a = vs.headD "" := by
              simp [lookup_allophone, h1, h2, h3, hn, hu, hdig, hsn, hsu]
            rw [hl]
            have := exactResult_mem hsu
            simp only [List.map_append]
            exact List.mem_cons_of_mem _ (List.mem_cons_of_mem _
              (List.mem_cons_of_mem _ (List.mem_append_right _ this)))
          | none =>
            have hl : lookup_allophone a =
                match find_closest_match a with
                | [] => ""
                | v :: _ => v := by
              simp [lookup_allophone, h1, h2, h3, hn, hu, hdig, hsn, hsu]
            rw [hl]
            rcases fallbackResult_ok a with h | h
            · left; exact h
            · right
              exact List.mem_cons_of_mem _ (List.mem_cons_of_mem _
                (List.mem_cons_of_mem _ h))

lemma tokenizeAux_flatten (l : List Char) :
    ∀ acc : List Char, (tokenizeAux l acc).flatten = acc.reverse ++ l := by
  induction l with
  | nil =>
    intro acc
    by_cases h : acc = [] <;> simp [tokenizeAux, h]
  | cons c rest ih =>
    intro acc
    by_cases hw : isWordChar c
    · simp [tokenizeAux, hw, ih (c :: acc)]
    · by_cases h : acc = [] <;> simp [tokenizeAux, hw, h, ih []]

lemma foldl_append_data (L : List String) :
    ∀ acc : String,
      (L.foldl (fun r t => r ++ t) acc).data =
        acc.data ++ (L.map String.data).flatten := by
  induction L with
  | nil => intro acc; simp
  | cons s L ih =>
    intro acc
    simp [List.foldl_cons, ih (acc ++ s), String.data_append]

/-- Claim C6: concatenating, in order, all tokens produced by the tokenizer
reconstructs the original input string exactly. -/
theorem claim_C6 (s : String) : String.join (parse_input s) = s := by
  apply String.ext
  show (List.foldl (fun r t => r ++ t) "" (parse_input s)).data = s.data
  rw [foldl_append_data]
  unfold parse_input
  rw [List.map_map]
  have hmk : (String.data ∘ String.mk) = id := rfl
  rw [hmk, List.map_id, tokenizeAux_flatten]
  rfl

lemma findWordsAux_sound :
    ∀ (l acc : List Char), (∀ c ∈ acc, isWordChar c = true) →
      ∀ w ∈ findWordsAux l acc, w ≠ [] ∧ ∀ c ∈ w, isWordChar c = true := by
  intro l
  induction l with
  | nil =>
    intro acc hacc w hw
    by_cases h : acc = []
    · simp [findWordsAux, h] at hw
    · simp only [findWordsAux, if_neg h, List.mem_singleton] at hw
      subst hw
      refine ⟨by simp [h], fun c hc => hacc c (List.mem_reverse.mp hc)⟩
  | cons c rest ih =>
    intro acc hacc w hw
    by_cases hwc : isWordChar c
    · simp only [findWordsAux, if_pos hwc] at hw
      refine ih (c :: acc) ?_ w hw
      intro x hx
      rcases List.mem_cons.mp hx with hx | hx
      · subst hx; exact hwc
      · exact hacc x hx
    · simp only [findWordsAux, if_neg hwc, List.mem_append] at hw
      rcases hw with hw | hw
      · by_cases h : acc = []
        · simp [h] at hw
        · simp only [if_neg h, List.mem_singleton] at hw
          subst hw
          refine ⟨by simp [h], fun x hx => hacc x (List.mem_reverse.mp hx)⟩
      · exact ih [] (by simp) w hw

lemma dict_keys_wordStr (cmu : String → List (List String)) (text : String) :
    ∀ tok, dictContains (text_to_allophones cmu text) tok = true →
      isWordStr tok = true := by
  intro tok h
  unfold dictContains at h
  rw [Option.isSome_iff_exists] at h
  obtain ⟨p, hp⟩ := h
  have hpm := List.mem_of_find?_eq_some hp
  have hpeq : p.1 = tok := by
    have := List.find?_some hp
    simpa using this
  unfold text_to_allophones at hpm
  rw [List.mem_map] at hpm
  obtain ⟨word, hword, hpe⟩ := hpm
  have htok : word = tok := by rw [← hpeq, ← hpe]
  unfold findWords at hword
  rw [List.mem_map] at hword
  obtain ⟨w, hw, hmkw⟩ := hword
  obtain ⟨hne, hall⟩ :=
    findWordsAux_sound (lowerStr text).data [] (by simp) w hw
  unfold isWordStr
  rw [← htok, ← hmkw]
  simp only [Bool.and_eq_true, List.all_eq_true]
  exact ⟨by simp [hne], hall⟩

lemma process_eq_expander (d : List (String × List String))
    (h : ∀ tok, dictContains d tok = true → isWordStr tok = true) :
    ∀ toks, process_punctuation toks d = (toks.map (expanderSpec d)).flatten := by
  intro toks
  induction toks with
  | nil => rfl
  | cons w rest ih =>
    simp only [process_punctuation, List.map_cons, List.flatten_cons, ih]
    congr 1
    by_cases hc : dictContains d w = true
    · have hws := h w hc
      simp [expanderSpec, hc, hws]
    · rw [Bool.not_eq_true] at hc
      by_cases h1 : w = ","
      · subst h1; simp +decide [expanderSpec, hc]
      · by_cases h2 : w = " "
        · subst h2; simp +decide [expanderSpec, hc]
        · by_cases h3 : w = "."
          · subst h3; simp +decide [expanderSpec, hc]
          · simp [expanderSpec, hc, h1, h2, h3]

/-- Claim C5: on the tokenizer's output and the pronunciation mapping built
from the same text, the expander contributes, per token in order, exactly
what the spec's contract states: the full label sequence of a looked-up
word, the sentinel label of a space, period or comma token, and nothing
for any other token. -/
theorem claim_C5 (cmu : String → List (List String)) (text : String) :
    process_punctuation (parse_input text) (text_to_allophones cmu text) =
      ((parse_input text).map
        (expanderSpec (text_to_allophones cmu text))).flatten :=
  process_eq_expander _ (dict_keys_wordStr cmu text) _

lemma lowerChar_not_upper (c : Char) : isUpperAscii (lowerChar c) = false := by
  unfold lowerChar
  by_cases h : 65 ≤ c.toNat ∧ c.toNat ≤ 90
  · rw [if_pos h]
    obtain ⟨n, hn⟩ : ∃ n, c.toNat = n := ⟨_, rfl⟩
    obtain ⟨h1, h2⟩ := h
    rw [hn] at h1 h2 ⊢
    interval_cases n <;> decide
  · rw [if_neg h]
    simp only [isUpperAscii, Bool.and_eq_false_iff, decide_eq_false_iff_not]
    omega

lemma findWordsAux_chars :
    ∀ (l acc : List Char) (w : List Char), w ∈ findWordsAux l acc →
      ∀ c ∈ w, c ∈ l ∨ c ∈ acc := by
  intro l
  induction l with
  | nil =>
    intro acc w hw c hc
    by_cases h : acc = []
    · simp [findWordsAux, h] at hw
    · simp only [findWordsAux, if_neg h, List.mem_singleton] at hw
      subst hw
      exact Or.inr (List.mem_reverse.mp hc)
  | cons x rest ih =>
    intro acc w hw c hc
    by_cases hx : isWordChar x
    · simp only [findWordsAux, if_pos hx] at hw
      rcases ih (x :: acc) w hw c hc with h | h
      · exact Or.inl (List.mem_cons_of_mem _ h)
      · rcases List.mem_cons.mp h with h | h
        · exact Or.inl (h ▸ List.mem_cons_self _ _)
        · exact Or.inr h
    · simp only [findWordsAux, if_neg hx, List.mem_append] at hw
      rcases hw with hw | hw
      · by_cases h : acc = []
        · simp [h] at hw
        · simp only [if_neg h, List.mem_singleton] at hw
          subst hw
          exact Or.inr (List.mem_reverse.mp hc)
      · rcases ih [] w hw c hc with h | h
        · exact Or.inl (List.mem_cons_of_mem _ h)
        · simp at h

lemma dict_keys_no_upper (cmu : String → List (List String)) (text : String) :
    ∀ p ∈ text_to_allophones cmu text, ∀ c ∈ p.1.data,
      isUpperAscii c = false := by
  intro p hp c hc
  unfold text_to_allophones at hp
  rw [List.mem_map] at hp
  obtain ⟨word, hword, hpe⟩ := hp
  have h1 : p.1 = word := by rw [← hpe]
  rw [h1] at hc
  unfold findWords at hword
  rw [List.mem_map] at hword
  obtain ⟨w, hw, hmkw⟩ := hword
  rw [← hmkw] at hc
  rcases findWordsAux_chars (lowerStr text).data [] w hw c hc with h | h
  · obtain ⟨c0, _, hc0⟩ := List.mem_map.mp h
    rw [← hc0]
    exact lowerChar_not_upper c0
  · simp at h

/-- Claim C9 (implicit): a token of the tokenizer's output containing an
ASCII uppercase letter contributes zero labels — the mapping built by
`text_to_allophones` is keyed by words of the lower-cased text, so such a
token matches no key and no sentinel, and is silently dropped (hence it
contributes zero fragments downstream). -/
theorem claim_C9 (cmu : String → List (List String)) (text tok : String)
    (ts : List String) (hmem : tok ∈ parse_input text)
    (hup : tok.data.any isUpperAscii = true) :
    process_punctuation (tok :: ts) (text_to_allophones cmu text) =
      process_punctuation ts (text_to_allophones cmu text) := by
  obtain ⟨c0, hc0, hc0u⟩ := List.any_eq_true.mp hup
  have hnc : dictContains (text_to_allophones cmu text) tok = false := by
    have hfind :
        (text_to_allophones cmu text).find? (fun p => p.1 = tok) = none := by
      rw [List.find?_eq_none]
      intro p hp
      simp only [decide_eq_true_eq]
      intro hpe
      have := dict_keys_no_upper cmu text p hp c0 (by rw [hpe]; exact hc0)
      rw [hc0u] at this
      cases this
    simp [dictContains, hfind]
  have h1 : tok ≠ "," := by
    rintro rfl
    simp only [List.mem_singleton] at hc0
    rw [hc0] at hc0u
    exact absurd hc0u (by decide)
  have h2 : tok ≠ " " := by
    rintro rfl
    simp only [List.mem_singleton] at hc0
    rw [hc0] at hc0u
    exact absurd hc0u (by decide)
  have h3 : tok ≠ "." := by
    rintro rfl
    simp only [List.mem_singleton] at hc0
    rw [hc0] at hc0u
    exact absurd hc0u (by decide)
  simp [process_punctuation, hnc, h1, h2, h3]

/-- Witness for C9: with an empty external dictionary, the token `"Hi"` of
the text `"Hi."` contributes nothing. -/
theorem claim_C9_witness :
    process_punctuation ["Hi"] (text_to_allophones (fun _ => []) "Hi.") =
      process_punctuation [] (text_to_allophones (fun _ => []) "Hi.") :=
  claim_C9 (fun _ => []) "Hi." "Hi" [] (by decide) (by decide)

lemma text_to_allophones_find (cmu : String → List (List String))
    (text word : String) (hmem : word ∈ findWords (lowerStr text)) :
    (text_to_allophones cmu text).find? (fun p => p.1 = word) =
      some (word, (cmu word).headD [word]) := by
  unfold text_to_allophones
  have : ∀ ws : List String, word ∈ ws →
      (ws.map (fun w => (w, (cmu w).headD [w]))).find? (fun p => p.1 = word) =
        some (word, (cmu word).headD [word]) := by
    intro ws
    induction ws with
    | nil => intro h; cases h
    | cons w ws ih =>
      intro h
      by_cases he : w = word
      · subst he
        simp [List.find?_cons]
      · rw [List.map_cons, List.find?_cons_of_neg _ (by simp [he])]
        refine ih ?_
        rcases List.mem_cons.mp h with h | h
        · exact absurd h.symm he
        · exact h
  exact this _ hmem

/-- Claim C8: a word of the input whose pronunciation is absent from the
external dictionary is mapped to the single-element sequence containing
the original word text unchanged. -/
theorem claim_C8 (cmu : String → List (List String)) (text word : String)
    (hmem : word ∈ findWords (lowerStr text)) (habsent : cmu word = []) :
    dictContains (text_to_allophones cmu text) word = true ∧
    dictGet (text_to_allophones cmu text) word = [word] := by
  have hf := text_to_allophones_find cmu text word hmem
  rw [habsent] at hf
  simp [dictContains, dictGet, hf]

/-- Witness for C8: the word `"zq"` with an empty external dictionary. -/
theorem claim_C8_witness :
    dictContains (text_to_allophones (fun _ => []) "zq") "zq" = true ∧
    dictGet (text_to_allophones (fun _ => []) "zq") "zq" = ["zq"] :=
  claim_C8 (fun _ => []) "zq" "zq" (by decide) rfl

lemma writeWavLoop_error (store : String → Nat × List Int) (r0 : Nat) :
    ∀ (l : List String) (acc : List Int),
      (∃ f ∈ l, (store f).1 ≠ r0) →
      writeWavLoop store l (some r0) acc =
        .error "All WAV files must have the same sample rate." := by
  intro l
  induction l with
  | nil =>
    intro acc h
    simp at h
  | cons g l ih =>
    intro acc h
    by_cases hg : (store g).1 = r0
    · have hex : ∃ f ∈ l, (store f).1 ≠ r0 := by
        rcases h with ⟨f, hf, hne⟩
        rcases List.mem_cons.mp hf with hf | hf
        · subst hf; exact absurd hg hne
        · exact ⟨f, hf, hne⟩
      simp only [writeWavLoop]
      rw [if_neg (not_not_intro hg.symm)]
      exact ih _ hex
    · simp only [writeWavLoop]
      rw [if_pos (fun he => hg he.symm)]

/-- Claim C7: if some fragment's sample rate differs from the first
fragment's, the assembler raises the `ValueError` — `Except.error`, so
the final write never happens and no output file is produced. -/
theorem claim_C7 (store : String → Nat × List Int) (f0 : String)
    (rest : List String) (h : ∃ f ∈ rest, (store f).1 ≠ (store f0).1) :
    write_wav store (f0 :: rest) =
      .error "All WAV files must have the same sample rate." := by
  unfold write_wav
  simp only [writeWavLoop]
  exact writeWavLoop_error store (store f0).1 rest _ h

/-- Witness for C7: two fragments with rates 1 and 2. -/
theorem claim_C7_witness :
    write_wav (fun f => (if f = "B" then 2 else 1, [])) ("A" :: ["B"]) =
      .error "All WAV files must have the same sample rate." :=
  claim_C7 (fun f => (if f = "B" then 2 else 1, [])) "A" ["B"] (by decide)

/-- Claim C4: on input `"hi."` with a dictionary whose first pronunciation
of `"hi"` is `["HH", "AY1"]` and all ignore flags true, the pipeline
produces exactly the fragments `["HH1.wav", "AY.wav"]` (the period
sentinel pruned), and the assembler output concatenates exactly those two
fragments' samples at their shared sample rate. -/
theorem claim_C4 (cmu : String → List (List String))
    (store : String → Nat × List Int) (r : Nat) (a b : List Int)
    (l : List (List String)) (hdict : cmu "hi" = ["HH", "AY1"] :: l)
    (h1 : store "HH1.wav" = (r, a)) (h2 : store "AY.wav" = (r, b)) :
    main_fragments cmu "hi." = ["HH1.wav", "AY.wav"] ∧
    mainPipeline cmu store "hi." = .ok (some r, a ++ b) := by
  have hta : text_to_allophones cmu "hi." = [("hi", ["HH", "AY1"])] := by
    have e : text_to_allophones cmu "hi." =
        [("hi", (cmu "hi").headD ["hi"])] := rfl
    rw [e, hdict]
    rfl
  have hmf : main_fragments cmu "hi." = ["HH1.wav", "AY.wav"] := by
    have e : main_fragments cmu "hi." =
        prune_punctuation (resolveAll (process_punctuation (parse_input "hi.")
          (text_to_allophones cmu "hi."))) := rfl
    rw [e, hta]
    decide
  refine ⟨hmf, ?_⟩
  unfold mainPipeline
  rw [hmf]
  unfold write_wav
  simp [writeWavLoop, h1, h2]

/-- Witness for C4: a concrete dictionary and store with rate 8000. -/
theorem claim_C4_witness :
    main_fragments (fun w => if w = "hi" then [["HH", "AY1"]] else []) "hi." =
      ["HH1.wav", "AY.wav"] ∧
    mainPipeline (fun w => if w = "hi" then [["HH", "AY1"]] else [])
      (fun f => if f = "HH1.wav" then (8000, [1, 2]) else (8000, [3]))
      "hi." = .ok (some 8000, [1, 2] ++ [3]) :=
  claim_C4 (fun w => if w = "hi" then [["HH", "AY1"]] else [])
    (fun f => if f = "HH1.wav" then (8000, [1, 2]) else (8000, [3]))
    8000 [1, 2] [3] [] (by decide) (by decide) (by decide)
